import Mathlib

/-!
Verification of the imgurs album downloader (src/main.rs) against its
natural-language specification.

The Rust program is shallowly embedded below.  Effectful operations
(filesystem metadata probes, file creation, streaming HTTP reads, writes,
renames, deletions, progress-bar updates) are modelled by an explicit
environment record `FetchEnv` describing how each external call would
respond, together with an explicit trace of emitted events (`Ev`), so that
the filesystem-visible behaviour of a fetch is the fold of its event trace
over an abstract filesystem state `FS`.
-/

namespace Imgurs

/-- Decidable equality for `Except`, needed to evaluate per-item results
on concrete inputs. -/
instance {ε α : Type _} [DecidableEq ε] [DecidableEq α] : DecidableEq (Except ε α) := fun x y =>
  match x, y with
  | .ok a, .ok b =>
    if h : a = b then .isTrue (congrArg Except.ok h)
    else .isFalse fun hc => h (Except.ok.inj hc)
  | .error a, .error b =>
    if h : a = b then .isTrue (congrArg Except.error h)
    else .isFalse fun hc => h (Except.error.inj hc)
  | .ok _, .error _ => .isFalse fun hc => Except.noConfusion hc
  | .error _, .ok _ => .isFalse fun hc => Except.noConfusion hc

/-- Result of probing a path's metadata, covering both `Ok` cases
(`tokio::fs::metadata` succeeded and the path is a file / a directory) and
the `Err` kinds the source distinguishes (`NotFound`, `PermissionDenied`,
anything else). -/
inductive MetaResult where
  | isFile
  | isDir
  | notFound
  | permissionDenied
  | otherErr
deriving DecidableEq, Inhabited

/-- How the streaming body ends after all its chunks have been delivered:
a clean end of stream (`res.chunk()` returns `None`) or a mid-stream
network failure (`res.chunk()` returns `Err`). -/
inductive StreamEnd where
  | eofEnd
  | netErr
deriving DecidableEq, Inhabited

/-- Environment of one `download_file` call: how each external operation
the Rust code performs would respond.  `chunks` are the byte chunks the
server delivers before `streamTail` decides how the stream ends;
`writeErrAt = some k` makes the `write_all` of the k-th delivered chunk
fail. -/
structure FetchEnv where
  urlValid : Bool
  destMeta : MetaResult
  createOk : Bool
  sendOk : Bool
  chunks : List (List Nat)
  streamTail : StreamEnd
  writeErrAt : Option Nat
  renameOk : Bool
  mtimeOk : Bool
deriving DecidableEq, Inhabited

/-- The distinct failure sites of one item's fetch, mirroring the error
paths of `download_file` (URL parse, metadata probe, temp-file creation,
GET request / stream read, chunk write, rename, set-mtime). -/
inductive DlError where
  | urlInvalid
  | foundExistingDirectory
  | permissionDenied
  | metadataUnavailable
  | createFailed
  | networkFailure
  | writeFailed
  | renameFailed
  | mtimeFailed
deriving DecidableEq, Inhabited

/-- Successful result of `download_file`: the early return when the final
path already exists as a regular file (skip), or a completed download.
In the Rust source both are `Ok(())`; the tag records which return site
produced the value. -/
inductive DlOk where
  | skipped
  | downloaded
deriving DecidableEq, Inhabited

/-- Observable events emitted by one item's fetch, in program order:
temp-file creation, the GET request, a progress-bar increment, a chunk
write to the temp file, the rename of temp to final, setting the final
file's mtime, the best-effort temp deletion in `main`'s cleanup, and
`ProgressBar::finish_and_clear`. -/
inductive Ev where
  | createTemp
  | sendGet
  | incProgress (n : Nat)
  | writeTemp (c : List Nat)
  | renameTempToFinal
  | setMtime
  | removeTemp
  | finishBar
deriving DecidableEq, Inhabited

/-- The `while let Some(chunk) = res.chunk().await?` loop of
`download_file`: each delivered chunk first bumps the progress bar by its
length, then is written to the temp file; a failing write aborts the loop
after the increment; when the chunk list is exhausted the stream either
ends cleanly or reports a network error. -/
def downloadLoop (wErr : Option Nat) (tail : StreamEnd) :
    Nat → List (List Nat) → Except DlError Unit × List Ev
  | _, [] =>
    (match tail with
     | .eofEnd => .ok ()
     | .netErr => .error .networkFailure, [])
  | k, c :: cs =>
    if wErr = some k then
      (.error .writeFailed, [.incProgress c.length])
    else
      let (r, evs) := downloadLoop wErr tail (k + 1) cs
      (r, .incProgress c.length :: .writeTemp c :: evs)

/-- The download phase of `download_file` once the final path is known to
be absent: create the temp file, issue the GET, then run the chunk loop. -/
def streamPhase (env : FetchEnv) : Except DlError Unit × List Ev :=
  if env.createOk = false then (.error .createFailed, [])
  else if env.sendOk = false then (.error .networkFailure, [.createTemp, .sendGet])
  else
    let (r, levs) := downloadLoop env.writeErrAt env.streamTail 0 env.chunks
    (r, .createTemp :: .sendGet :: levs)

/-- What `download_file` does after the stream loop returns: on loop
success, rename the temp file to the final path and then set the final
file's modification time, each step able to fail. -/
def afterStream (renameOk mtimeOk : Bool) (r : Except DlError Unit) (evs : List Ev) :
    Except DlError DlOk × List Ev :=
  match r with
  | .error e => (.error e, evs)
  | .ok _ =>
    if renameOk = false then (.error .renameFailed, evs)
    else if mtimeOk = false then (.error .mtimeFailed, evs ++ [.renameTempToFinal])
    else (.ok .downloaded, evs ++ [.renameTempToFinal, .setMtime])

/-- Embedding of `download_file` (src/main.rs lines 95-144): parse the
URL, probe the final path's metadata (returning early if it already
exists), then download to the temp path, rename, and set the mtime. -/
def download_file (env : FetchEnv) : Except DlError DlOk × List Ev :=
  if env.urlValid = false then (.error .urlInvalid, [])
  else
    match env.destMeta with
    | .isFile => (.ok .skipped, [])
    | .isDir => (.error .foundExistingDirectory, [])
    | .permissionDenied => (.error .permissionDenied, [])
    | .otherErr => (.error .metadataUnavailable, [])
    | .notFound =>
      let (r, evs) := streamPhase env
      afterStream env.renameOk env.mtimeOk r evs

/-- The per-item async block in `main` (lines 244-258): run
`download_file`; on error, best-effort delete the temp path and wrap the
error with the item's filename; on success, finish and clear the item's
progress bar. -/
def processItem (fname : List Char) (env : FetchEnv) :
    Except (List Char × DlError) DlOk × List Ev :=
  match download_file env with
  | (.error e, evs) => (.error (fname, e), evs ++ [.removeTemp])
  | (.ok k, evs) => (.ok k, evs ++ [.finishBar])

/-- Abstract filesystem state for one item: the byte content (if any) at
its temp path and at its final path. -/
structure FS where
  temp : Option (List Nat)
  final : Option (List Nat)
deriving DecidableEq, Inhabited

/-- Effect of one fetch event on the item's two paths.  `createTemp`
truncates/creates the temp file, `writeTemp` appends to it,
`renameTempToFinal` moves its content to the final path, `removeTemp`
deletes it; progress events and `setMtime` leave content unchanged. -/
def applyEv (fs : FS) : Ev → FS
  | .createTemp => { fs with temp := some [] }
  | .writeTemp c => { fs with temp := fs.temp.map (· ++ c) }
  | .renameTempToFinal => { temp := none, final := fs.temp }
  | .removeTemp => { fs with temp := none }
  | .sendGet => fs
  | .incProgress _ => fs
  | .setMtime => fs
  | .finishBar => fs

/-- Fold a trace of fetch events over a filesystem state. -/
def applyEvs (fs : FS) (evs : List Ev) : FS :=
  evs.foldl applyEv fs

/-- The part of a content-type string after its first `/`, mirroring
`content_type.split_once("/")`:  `none` when the string has no `/`. -/
def splitSubtype : List Char → Option (List Char)
  | [] => none
  | c :: cs => if c = '/' then some cs else splitSubtype cs

/-- Embedding of `get_media_type` (lines 66-73): take the subtype after
the first `/` (or `unknown` when the content-type has none) and map
`jpeg` to `jpg`. -/
def get_media_type (contentType : List Char) : List Char :=
  match splitSubtype contentType with
  | none => "unknown".toList
  | some sub => if sub = "jpeg".toList then "jpg".toList else sub

/-- The value of `num_files as i32` (lines 193-194): the item count, a
`usize`, truncated to 32 bits and reinterpreted as a signed integer. -/
def i32OfUsize (n : Nat) : Int :=
  if n % 2 ^ 32 < 2 ^ 31 then ((n % 2 ^ 32 : Nat) : Int)
  else ((n % 2 ^ 32 : Nat) : Int) - 2 ^ 32

/-- The `while width > 0 { width /= 10; count += 1 }` loop of lines
195-199: counts the decimal digits of a non-negative value. -/
def digitCountLoop (n : Nat) : Nat :=
  if h : n = 0 then 0 else digitCountLoop (n / 10) + 1
decreasing_by exact Nat.div_lt_self (Nat.pos_of_ne_zero h) (by decide)

/-- The zero-padding width `main` computes from the item count (lines
193-201), including the `usize → i32` cast: a non-positive cast value
leaves the loop immediately with width 0. -/
def filenameWidth (numFiles : Nat) : Nat :=
  let w := i32OfUsize numFiles
  if w ≤ 0 then 0 else digitCountLoop w.toNat

/-- Little-endian decimal digits, computed with explicit fuel so that the
definition is structurally recursive (fuel `n` always suffices since the
argument shrinks by a factor of 10 each step). -/
def decDigitsFuel : Nat → Nat → List Nat
  | 0, _ => []
  | _ + 1, 0 => []
  | fuel + 1, n + 1 => ((n + 1) % 10) :: decDigitsFuel fuel ((n + 1) / 10)

/-- Little-endian decimal digits of a number. -/
def decDigitsLE (n : Nat) : List Nat :=
  decDigitsFuel n n

/-- Big-endian decimal digits of a number, as printed by `{}`. -/
def decimalDigitsBE (n : Nat) : List Nat :=
  (decDigitsLE n).reverse

/-- Left padding with zeros to width `w`, as `{:0>width$}` does; a value
wider than `w` is printed in full. -/
def zeroPad (w : Nat) (ds : List Nat) : List Nat :=
  List.replicate (w - ds.length) 0 ++ ds

/-- The characters of `format!("{:0>width$}", n)`. -/
def fmtIndex (w n : Nat) : List Char :=
  (zeroPad w (decimalDigitsBE n)).map Nat.digitChar

/-- An optional ` - <text>` segment, as built for the item's title and
description (lines 204-213). -/
def optionPart : Option (List Char) → List Char
  | some t => " - ".toList ++ t
  | none => []

/-- The per-item filename of lines 214-222:
`{index+1:0>width$} - {id}[ - {title}][ - {description}].{ext}`. -/
def itemFilename (w idx : Nat) (mediaId : List Char)
    (title descr : Option (List Char)) (contentType : List Char) : List Char :=
  fmtIndex w (idx + 1) ++ " - ".toList ++ mediaId ++ optionPart title
    ++ optionPart descr ++ ['.'] ++ get_media_type contentType

/-- Result of one `prepare_directory` run. -/
inductive PrepResult where
  | prepOk
  | createFailed
  | permissionDenied
  | metadataUnavailable
  | destinationIsFile
deriving DecidableEq, Inhabited

/-- Embedding of `prepare_directory` (lines 75-93) together with the
path's post-state: a missing path is created (becoming a directory when
`create_dir_all` succeeds), an existing directory is accepted, an
existing regular file and metadata errors are rejected; only a
successful create changes the path's state. -/
def prepare_directory (createOk : Bool) (m : MetaResult) : PrepResult × MetaResult :=
  match m with
  | .notFound => if createOk then (.prepOk, .isDir) else (.createFailed, .notFound)
  | .permissionDenied => (.permissionDenied, .permissionDenied)
  | .otherErr => (.metadataUnavailable, .otherErr)
  | .isFile => (.destinationIsFile, .isFile)
  | .isDir => (.prepOk, .isDir)

/-- How the album-metadata request in `main` (lines 157-163) turns out:
a transport/parse error (propagated by `?`), an API-level failure
(`data: null` with a status code), or an album whose items drive the
download pipeline. -/
inductive MetaFetch where
  | transportError
  | apiFailure (status : Nat)
  | success (images : List FetchEnv)
deriving DecidableEq, Inhabited

/-- Failure sites of `main` that make the process exit non-zero (an `Err`
return from `main`). -/
inductive MainErr where
  | albumRequestFailed
  | dirPrepFailed (e : PrepResult)
deriving DecidableEq, Inhabited

/-- Environment of one `main` run: the album request's outcome, the
`--details` flag, and the destination path's state as seen by
`prepare_directory`. -/
structure MainEnv where
  fetch : MetaFetch
  detailsOnly : Bool
  dirMeta : MetaResult
  createOk : Bool
deriving DecidableEq, Inhabited

/-- The exit-status-relevant control flow of `main` (lines 146-288): a
transport error in the album request propagates via `?` (non-zero exit);
an API failure prints the status and returns `Ok` (zero exit);
details-only mode and an empty album return `Ok` before any directory
work; a `prepare_directory` failure propagates via `?` (non-zero exit);
otherwise the downloads run and `main` returns `Ok` no matter how many
items fail. -/
def mainRun (env : MainEnv) : Except MainErr Unit :=
  match env.fetch with
  | .transportError => .error .albumRequestFailed
  | .apiFailure _ => .ok ()
  | .success images =>
    if env.detailsOnly then .ok ()
    else if images.length = 0 then .ok ()
    else
      match (prepare_directory env.createOk env.dirMeta).1 with
      | .prepOk => .ok ()
      | e => .error (.dirPrepFailed e)

/-- Whether a `main` run exits with a non-zero status. -/
def exitNonZero (env : MainEnv) : Bool :=
  match mainRun env with
  | .ok _ => false
  | .error _ => true

/-- Whether the album metadata fetch itself failed (either at the
transport level or with an API failure status). -/
def albumFetchFailed (env : MainEnv) : Bool :=
  match env.fetch with
  | .success _ => false
  | _ => true

/-- Per-item result type as collected by `main`'s stream: either a
success or the item's error wrapped with its filename (the
`with_context` at line 257). -/
abbrev ItemResult := Except (List Char × DlError) DlOk

/-- The outcome of one `(filename, env)` item, as `main`'s per-item
async block produces it. -/
def runItem (it : List Char × FetchEnv) : ItemResult :=
  (processItem it.1 it.2).1

/-- A completion order `σ` (a list of item indices) that
`buffer_unordered(P)` can produce over `n` items: every item completes
exactly once, and since futures are started in input order with at most
`P` in flight, the k-th completed item is among the first `k + P`
started, i.e. its index is below `k + P`. -/
def validSchedule (p n : Nat) (σ : List Nat) : Prop :=
  List.Perm σ (List.range n) ∧ ∀ k, k < σ.length → σ.getD k 0 < k + p

/-- Outcomes collected by the scheduler when items complete in the order
`σ` (line 233-268): the item list evaluated pointwise, listed in
completion order. -/
def schedRun (items : List (List Char × FetchEnv)) (σ : List Nat) : List ItemResult :=
  σ.map fun i => runItem (items.getD i ([], default))

/-- The error values of a result list, as `main`'s
`filter_map`/`collect` produces them (lines 261-268). -/
def collectErrors (rs : List ItemResult) : List (List Char × DlError) :=
  rs.filterMap fun r =>
    match r with
    | .ok _ => none
    | .error e => some e

/-- What the final report prints (lines 270-277). -/
structure Summary where
  downloaded : Nat
  total : Nat
  failures : List (List Char × DlError)
deriving DecidableEq

/-- The summary `main` prints: `Downloaded {num_files - errors.len()}/{num_files}`
followed by every collected error (filename and cause). -/
def reportSummary (rs : List ItemResult) : Summary :=
  { downloaded := rs.length - (collectErrors rs).length
    total := rs.length
    failures := collectErrors rs }

/-- Number of `Ok` results (succeeded or skipped items) in a result list. -/
def countOk (rs : List ItemResult) : Nat :=
  (rs.filter fun r =>
    match r with
    | .ok _ => true
    | .error _ => false).length

/-- Progress increments occurring in an event trace, in order. -/
def incAmounts (evs : List Ev) : List Nat :=
  evs.filterMap fun e =>
    match e with
    | .incProgress n => some n
    | _ => none

/-- The chunks a fetch actually receives from the network (mirrors
`downloadLoop`: a failing write still received its chunk, and stops the
loop). -/
def deliveredLoop (wErr : Option Nat) : Nat → List (List Nat) → List (List Nat)
  | _, [] => []
  | k, c :: cs => if wErr = some k then [c] else c :: deliveredLoop wErr (k + 1) cs

/-- The chunks one item's fetch receives: none unless the fetch reaches
the download phase (valid URL, absent final path, temp file created, GET
sent). -/
def deliveredChunks (env : FetchEnv) : List (List Nat) :=
  if env.urlValid = false then []
  else
    match env.destMeta with
    | .notFound =>
      if env.createOk = false then []
      else if env.sendOk = false then []
      else deliveredLoop env.writeErrAt 0 env.chunks
    | _ => []

/-! ### Concrete environments used by witnesses and counterexamples -/

/-- A fetch in which every external operation succeeds and the server
delivers the chunks `[1]` and `[2, 3]`. -/
def envAllOk : FetchEnv :=
  { urlValid := true, destMeta := .notFound, createOk := true, sendOk := true,
    chunks := [[1], [2, 3]], streamTail := .eofEnd, writeErrAt := none,
    renameOk := true, mtimeOk := true }

/-- Like `envAllOk` but `set_file_mtime` fails after the rename. -/
def envMtimeFail : FetchEnv := { envAllOk with mtimeOk := false }

/-- Like `envAllOk` but the GET request itself fails. -/
def envSendFail : FetchEnv := { envAllOk with sendOk := false }

/-- A fetch whose final path already exists as a regular file. -/
def envSkip : FetchEnv := { envAllOk with destMeta := .isFile }

/-- A fetch whose final path already exists as a regular file but whose
URL does not parse. -/
def envSkipBadUrl : FetchEnv := { envSkip with urlValid := false }

/-- A `main` run whose album request succeeds with one item but whose
destination path is an existing regular file. -/
def mainEnvDirFile : MainEnv :=
  { fetch := .success [envAllOk], detailsOnly := false, dirMeta := .isFile, createOk := true }

/-- The three-item scenario: two items download fine (10 bytes and 0
bytes of content) and one item's URL is malformed. -/
def scenarioItems : List (List Char × FetchEnv) :=
  [("1 - a.jpg".toList, { envAllOk with chunks := [List.replicate 10 7] }),
   ("2 - b.png".toList, { envAllOk with chunks := [] }),
   ("3 - c.mp4".toList, { envAllOk with urlValid := false })]

/-- The per-item results of the three-item scenario. -/
def scenarioResults : List ItemResult := scenarioItems.map runItem

/-- The value a big-endian digit string denotes (reading it back as a
decimal number). -/
def decValue (ds : List Nat) : Nat :=
  ds.foldl (fun a d => 10 * a + d) 0

/-! ### General trace lemmas -/

theorem applyEvs_append (fs : FS) (l₁ l₂ : List Ev) :
    applyEvs fs (l₁ ++ l₂) = applyEvs (applyEvs fs l₁) l₂ :=
  List.foldl_append _ _ _ _

theorem applyEv_final_of_ne (fs : FS) (e : Ev) (h : e ≠ Ev.renameTempToFinal) :
    (applyEv fs e).final = fs.final := by
  cases e <;> simp [applyEv] at h ⊢

theorem applyEvs_final_of_forall_ne (p : List Ev) (fs : FS)
    (h : ∀ e ∈ p, e ≠ Ev.renameTempToFinal) : (applyEvs fs p).final = fs.final := by
  induction p generalizing fs with
  | nil => rfl
  | cons e p ih =>
    have he : e ≠ Ev.renameTempToFinal := h e (List.mem_cons_self e p)
    have : (applyEv fs e).final = fs.final := applyEv_final_of_ne fs e he
    calc (applyEvs fs (e :: p)).final
        = (applyEvs (applyEv fs e) p).final := rfl
      _ = (applyEv fs e).final := ih _ fun x hx => h x (List.mem_cons_of_mem _ hx)
      _ = fs.final := this

/-- Every event the chunk loop emits is a progress increment or a temp
write. -/
theorem downloadLoop_events (wErr : Option Nat) (tl : StreamEnd) :
    ∀ (cs : List (List Nat)) (k : Nat), ∀ e ∈ (downloadLoop wErr tl k cs).2,
      (∃ n, e = Ev.incProgress n) ∨ ∃ c, e = Ev.writeTemp c := by
  intro cs
  induction cs with
  | nil => intro k e he; simp [downloadLoop] at he
  | cons c cs ih =>
    intro k e he
    by_cases hw : wErr = some k
    · simp [downloadLoop, hw] at he
      exact Or.inl ⟨c.length, he⟩
    · simp [downloadLoop, hw] at he
      rcases he with h | h | h
      · exact Or.inl ⟨c.length, h⟩
      · exact Or.inr ⟨c, h⟩
      · exact ih (k + 1) e h

/-- If the chunk loop succeeds, every chunk was written: the temp file
ends holding the previous content followed by all chunks, and nothing
else changed. -/
theorem downloadLoop_ok_state (wErr : Option Nat) (tl : StreamEnd) :
    ∀ (cs : List (List Nat)) (k : Nat) (fs : FS) (w : List Nat),
      (downloadLoop wErr tl k cs).1 = .ok () → fs.temp = some w →
      applyEvs fs (downloadLoop wErr tl k cs).2 = ⟨some (w ++ cs.flatten), fs.final⟩ := by
  intro cs
  induction cs with
  | nil =>
    intro k fs w _ hw
    simp [downloadLoop, applyEvs]
    cases fs
    simp_all
  | cons c cs ih =>
    intro k fs w hok hw
    by_cases hcase : wErr = some k
    · simp [downloadLoop, hcase] at hok
    · simp only [downloadLoop, if_neg hcase] at hok ⊢
      have step : applyEvs fs [Ev.incProgress c.length, Ev.writeTemp c] =
          { fs with temp := some (w ++ c) } := by
        simp [applyEvs, applyEv, hw]
      have : (Ev.incProgress c.length :: Ev.writeTemp c :: (downloadLoop wErr tl (k + 1) cs).2)
          = [Ev.incProgress c.length, Ev.writeTemp c] ++ (downloadLoop wErr tl (k + 1) cs).2 := rfl
      rw [this, applyEvs_append, step]
      have h2 := ih (k + 1) { fs with temp := some (w ++ c) } (w ++ c) hok rfl
      rw [h2]
      simp [List.append_assoc]

/-- A failing chunk loop fails with a network or a write error. -/
theorem downloadLoop_error (wErr : Option Nat) (tl : StreamEnd) :
    ∀ (cs : List (List Nat)) (k : Nat) (e : DlError),
      (downloadLoop wErr tl k cs).1 = .error e →
      e = DlError.networkFailure ∨ e = DlError.writeFailed := by
  intro cs
  induction cs with
  | nil =>
    intro k e he
    cases tl <;> simp [downloadLoop] at he
    exact Or.inl he.symm
  | cons c cs ih =>
    intro k e he
    by_cases hcase : wErr = some k
    · simp [downloadLoop, hcase] at he
      exact Or.inr he.symm
    · simp only [downloadLoop, if_neg hcase] at he
      exact ih (k + 1) e he

/-- Every event the stream phase emits is temp creation, the GET, a
progress increment or a temp write; in particular never the rename. -/
theorem streamPhase_events (env : FetchEnv) :
    ∀ e ∈ (streamPhase env).2,
      e = Ev.createTemp ∨ e = Ev.sendGet ∨
      (∃ n, e = Ev.incProgress n) ∨ ∃ c, e = Ev.writeTemp c := by
  intro e he
  by_cases hc : env.createOk = false
  · simp [streamPhase, hc] at he
  · by_cases hs : env.sendOk = false
    · simp [streamPhase, hc, hs] at he
      rcases he with h | h
      · exact Or.inl h
      · exact Or.inr (Or.inl h)
    · simp only [streamPhase, if_neg hc, if_neg hs, List.mem_cons] at he
      rcases he with h | h | h
      · exact Or.inl h
      · exact Or.inr (Or.inl h)
      · exact Or.inr (Or.inr (downloadLoop_events _ _ _ _ e h))

/-- A successful stream phase leaves the temp file holding exactly the
full stream content and the final path untouched. -/
theorem streamPhase_ok_state (env : FetchEnv) (f0 : Option (List Nat))
    (h : (streamPhase env).1 = .ok ()) :
    applyEvs ⟨none, f0⟩ (streamPhase env).2 = ⟨some env.chunks.flatten, f0⟩ := by
  by_cases hc : env.createOk = false
  · simp [streamPhase, hc] at h
  · by_cases hs : env.sendOk = false
    · simp [streamPhase, hc, hs] at h
    · simp only [streamPhase, if_neg hc, if_neg hs] at h ⊢
      have : (Ev.createTemp :: Ev.sendGet ::
          (downloadLoop env.writeErrAt env.streamTail 0 env.chunks).2) =
          [Ev.createTemp, Ev.sendGet] ++
          (downloadLoop env.writeErrAt env.streamTail 0 env.chunks).2 := rfl
      rw [this, applyEvs_append]
      have step : applyEvs ⟨none, f0⟩ [Ev.createTemp, Ev.sendGet] =
          ⟨some [], f0⟩ := by simp [applyEvs, applyEv]
      rw [step]
      have := downloadLoop_ok_state env.writeErrAt env.streamTail env.chunks 0
        ⟨some [], f0⟩ [] h rfl
      simpa using this

/-! ### Claim C9: directory preparation is idempotent -/

/-- Claim C9: running the Directory Preparer twice on a path that
initially does not exist succeeds both times — the first run creates the
directory, after which the path is a directory, and the second run (with
any behaviour of `create_dir_all`, which it never calls) finds the
existing directory and succeeds. -/
theorem prepare_directory_idempotent :
    (prepare_directory true .notFound).1 = .prepOk ∧
    (prepare_directory true .notFound).2 = .isDir ∧
    ∀ c : Bool, (prepare_directory c (prepare_directory true .notFound).2).1 = .prepOk := by
  decide

/-! ### Claim C7: exit status -/

/-- Counterexample to claim C7 as stated: in a run whose album metadata
fetch succeeds but whose destination path is an existing regular file,
`prepare_directory` fails and its error propagates out of `main` via `?`,
so the process exits non-zero even though the album metadata fetch did
not fail. -/
theorem exit_nonzero_cx :
    exitNonZero mainEnvDirFile = true ∧ albumFetchFailed mainEnvDirFile = false := by
  decide

/-- Claim C7 as amended: the process exits non-zero exactly when the
album request fails at the transport level, or the album is present,
downloading is attempted (not details-only, at least one item) and
directory preparation fails.  An API-level album failure (`data: null`)
is printed and exits zero, and individual file-fetch failures never make
the exit status non-zero (they do not occur in the right-hand side at
all). -/
theorem exit_nonzero_iff (env : MainEnv) :
    exitNonZero env = true ↔
      (env.fetch = .transportError ∨
       ∃ images, env.fetch = .success images ∧ env.detailsOnly = false ∧
         images ≠ [] ∧ (prepare_directory env.createOk env.dirMeta).1 ≠ .prepOk) := by
  rcases env with ⟨fetch, details, dirMeta, createOk⟩
  cases fetch with
  | transportError => simp [exitNonZero, mainRun]
  | apiFailure s => simp [exitNonZero, mainRun]
  | success images =>
    cases details
    · cases himg : images with
      | nil => simp [exitNonZero, mainRun]
      | cons a l =>
        rcases hprep : (prepare_directory createOk dirMeta).1 with _ | _ | _ | _ | _ <;>
          simp [exitNonZero, mainRun, hprep]
    · simp [exitNonZero, mainRun]

/-! ### Claim C4: existing final file means a skip -/

/-- Counterexample to claim C4 as stated: the URL is parsed before the
existence check, so an item whose final path already exists as a regular
file but whose URL is malformed yields the URL-parse error instead of
the skipped outcome. -/
theorem skip_requires_valid_url_cx :
    envSkipBadUrl.destMeta = .isFile ∧
    (download_file envSkipBadUrl).1 = .error .urlInvalid ∧
    (download_file envSkipBadUrl).1 ≠ .ok .skipped := by
  decide

/-- Claim C4 as amended: for every item whose URL parses and whose final
destination path already exists as a regular file, the fetch returns the
skipped outcome, emits no events at all from `download_file`, and in
particular performs zero network calls. -/
theorem skip_existing_file (fname : List Char) (env : FetchEnv)
    (hurl : env.urlValid = true) (hmeta : env.destMeta = .isFile) :
    (download_file env).1 = .ok .skipped ∧ (download_file env).2 = [] ∧
    Ev.sendGet ∉ (processItem fname env).2 := by
  simp [download_file, processItem, hurl, hmeta]

/-- Witness for `skip_existing_file` at a concrete environment. -/
theorem skip_existing_file_witness :
    envSkip.urlValid = true ∧ envSkip.destMeta = .isFile ∧
    ((download_file envSkip).1 = .ok .skipped ∧ (download_file envSkip).2 = [] ∧
      Ev.sendGet ∉ (processItem ['a'] envSkip).2) :=
  ⟨rfl, rfl, skip_existing_file ['a'] envSkip rfl rfl⟩

/-! ### Claim C8: the result reporter -/

theorem collectErrors_length_add_countOk (rs : List ItemResult) :
    (collectErrors rs).length + countOk rs = rs.length := by
  induction rs with
  | nil => rfl
  | cons r rs ih =>
    cases r with
    | ok v =>
      simp [collectErrors, countOk, List.filterMap_cons, List.filter_cons] at ih ⊢
      omega
    | error e =>
      simp [collectErrors, countOk, List.filterMap_cons, List.filter_cons] at ih ⊢
      omega

/-- Claim C8: the reporter prints the number of non-failed items
(`num_files - errors.len()`, which equals the count of `Ok` results,
i.e. succeeded plus skipped) over the total, and its failure list holds
exactly the failed items' filenames with their causes; in the three-item
scenario with one malformed URL it reports 2/3 and that one failure. -/
theorem reporter_summary (rs : List ItemResult) :
    (reportSummary rs).downloaded = countOk rs ∧
    (reportSummary rs).total = rs.length ∧
    (∀ x, x ∈ (reportSummary rs).failures ↔ .error x ∈ rs) ∧
    reportSummary scenarioResults = ⟨2, 3, [("3 - c.mp4".toList, .urlInvalid)]⟩ := by
  refine ⟨?_, rfl, ?_, by decide⟩
  · have h := collectErrors_length_add_countOk rs
    simp only [reportSummary]
    omega
  · intro x
    simp only [reportSummary, collectErrors, List.mem_filterMap]
    constructor
    · rintro ⟨r, hr, he⟩
      cases r with
      | ok v => exact absurd he (by simp)
      | error e =>
        have hex : e = x := by simpa using he
        subst hex
        exact hr
    · intro hx
      exact ⟨.error x, hx, rfl⟩

/-! ### Claim C1: the bounded-concurrency scheduler -/

theorem map_getD_range (l : List (List Char × FetchEnv)) :
    (List.range l.length).map (fun i => l.getD i ([], default)) = l := by
  induction l with
  | nil => rfl
  | cons a l ih =>
    have h2 : ((fun i => (a :: l).getD i ([], default)) ∘ Nat.succ) =
        (fun i => l.getD i ([], default)) := by
      funext i
      simp
    calc (List.range (a :: l).length).map (fun i => (a :: l).getD i ([], default))
        = (0 :: (List.range l.length).map Nat.succ).map
            (fun i => (a :: l).getD i ([], default)) := by
          rw [show (a :: l).length = l.length + 1 from rfl, List.range_succ_eq_map]
      _ = a :: (List.range l.length).map
            ((fun i => (a :: l).getD i ([], default)) ∘ Nat.succ) := by
          rw [List.map_cons, List.map_map, List.getD_cons_zero]
      _ = a :: (List.range l.length).map (fun i => l.getD i ([], default)) := by rw [h2]
      _ = a :: l := by rw [ih]

/-- Any valid completion order yields the pointwise item outcomes, merely
permuted. -/
theorem schedRun_perm_map (items : List (List Char × FetchEnv)) (p : Nat) (σ : List Nat)
    (hv : validSchedule p items.length σ) :
    List.Perm (schedRun items σ) (items.map runItem) := by
  have hperm : List.Perm σ (List.range items.length) := hv.1
  have h1 : List.Perm (schedRun items σ)
      ((List.range items.length).map fun i => runItem (items.getD i ([], default))) :=
    List.Perm.map _ hperm
  have h2 : ((List.range items.length).map fun i => runItem (items.getD i ([], default)))
      = items.map runItem := by
    have := map_getD_range items
    calc ((List.range items.length).map fun i => runItem (items.getD i ([], default)))
        = ((List.range items.length).map fun i => items.getD i ([], default)).map runItem := by
          rw [List.map_map]
          rfl
      _ = items.map runItem := by rw [this]
  rw [h2] at h1
  exact h1

/-- Claim C1: for every item list and concurrency limits at least 1, any
completion orders that `buffer_unordered` can produce yield the per-item
outcome list as a permutation of the pointwise outcomes — every item
yields exactly one outcome, none dropped, retried or duplicated — and
the collected outcome multisets coincide across concurrency limits (in
particular for a limit of 1 versus one per item). -/
theorem scheduler_outcomes (items : List (List Char × FetchEnv)) (p₁ p₂ : Nat)
    (σ₁ σ₂ : List Nat) (hp₁ : 1 ≤ p₁) (hp₂ : 1 ≤ p₂)
    (hv₁ : validSchedule p₁ items.length σ₁) (hv₂ : validSchedule p₂ items.length σ₂) :
    List.Perm (schedRun items σ₁) (items.map runItem) ∧
    List.Perm (schedRun items σ₁) (schedRun items σ₂) := by
  have h1 := schedRun_perm_map items p₁ σ₁ hv₁
  have h2 := schedRun_perm_map items p₂ σ₂ hv₂
  exact ⟨h1, h1.trans h2.symm⟩

/-- Witness for `scheduler_outcomes`: two items, compared between a
sequential schedule at limit 1 and a reversed completion order at limit
2. -/
theorem scheduler_outcomes_witness :
    1 ≤ 1 ∧ 1 ≤ 2 ∧
    validSchedule 1 ([("a".toList, envAllOk), ("b".toList, envSendFail)]).length [0, 1] ∧
    validSchedule 2 ([("a".toList, envAllOk), ("b".toList, envSendFail)]).length [1, 0] ∧
    (List.Perm (schedRun [("a".toList, envAllOk), ("b".toList, envSendFail)] [0, 1])
        ([("a".toList, envAllOk), ("b".toList, envSendFail)].map runItem) ∧
     List.Perm (schedRun [("a".toList, envAllOk), ("b".toList, envSendFail)] [0, 1])
        (schedRun [("a".toList, envAllOk), ("b".toList, envSendFail)] [1, 0])) :=
  ⟨by decide, by decide, by constructor <;> decide, by constructor <;> decide,
    scheduler_outcomes _ 1 2 [0, 1] [1, 0] (by decide) (by decide)
      (by constructor <;> decide) (by constructor <;> decide)⟩

/-! ### Claim C10: per-item progress -/

theorem incAmounts_append (l₁ l₂ : List Ev) :
    incAmounts (l₁ ++ l₂) = incAmounts l₁ ++ incAmounts l₂ :=
  List.filterMap_append _ _ _

/-- The chunk loop's progress increments are exactly the byte lengths of
the chunks it received. -/
theorem downloadLoop_incAmounts (wErr : Option Nat) (tl : StreamEnd) :
    ∀ (cs : List (List Nat)) (k : Nat),
      incAmounts (downloadLoop wErr tl k cs).2 = (deliveredLoop wErr k cs).map List.length := by
  intro cs
  induction cs with
  | nil => intro k; cases tl <;> simp [downloadLoop, deliveredLoop, incAmounts]
  | cons c cs ih =>
    intro k
    by_cases hw : wErr = some k
    · simp [downloadLoop, deliveredLoop, hw, incAmounts]
    · simp only [downloadLoop, deliveredLoop, if_neg hw, incAmounts, List.filterMap_cons,
        List.map_cons]
      rw [← incAmounts, ih (k + 1)]

theorem finishBar_not_mem_streamPhase (env : FetchEnv) :
    Ev.finishBar ∉ (streamPhase env).2 := by
  intro h
  rcases streamPhase_events env _ h with h1 | h1 | ⟨n, h1⟩ | ⟨c, h1⟩ <;> exact Ev.noConfusion h1

theorem finishBar_not_mem_afterStream (ro mo : Bool) (r : Except DlError Unit)
    (evs : List Ev) (h : Ev.finishBar ∉ evs) :
    Ev.finishBar ∉ (afterStream ro mo r evs).2 := by
  cases r with
  | error e => simpa [afterStream] using h
  | ok u =>
    by_cases hro : ro = false
    · simpa [afterStream, hro] using h
    · by_cases hmo : mo = false <;> simp [afterStream, hro, hmo, h]

theorem finishBar_not_mem_download (env : FetchEnv) :
    Ev.finishBar ∉ (download_file env).2 := by
  by_cases hu : env.urlValid = false
  · simp [download_file, hu]
  · cases hm : env.destMeta <;> simp only [download_file, if_neg hu, hm]
    · simp
    · simp
    · rcases hsp : streamPhase env with ⟨r, evs⟩
      have hmem : Ev.finishBar ∉ evs := by
        have := finishBar_not_mem_streamPhase env
        rw [hsp] at this
        exact this
      exact finishBar_not_mem_afterStream env.renameOk env.mtimeOk r evs hmem
    · simp
    · simp

/-- The progress increments of a whole fetch are the byte lengths of the
chunks it received. -/
theorem download_file_incAmounts (env : FetchEnv) :
    incAmounts (download_file env).2 = (deliveredChunks env).map List.length := by
  by_cases hu : env.urlValid = false
  · simp [download_file, deliveredChunks, hu, incAmounts]
  · cases hm : env.destMeta <;>
      simp only [download_file, deliveredChunks, if_neg hu, hm]
    · simp [incAmounts]
    · simp [incAmounts]
    · by_cases hc : env.createOk = false
      · simp [streamPhase, afterStream, hc, incAmounts]
      · by_cases hs : env.sendOk = false
        · simp [streamPhase, afterStream, hc, hs, incAmounts]
        · rcases hl : downloadLoop env.writeErrAt env.streamTail 0 env.chunks with ⟨r, levs⟩
          have hsp : streamPhase env = (r, Ev.createTemp :: Ev.sendGet :: levs) := by
            simp [streamPhase, if_neg hc, if_neg hs, hl]
          have hincs : incAmounts (Ev.createTemp :: Ev.sendGet :: levs) = incAmounts levs := by
            simp [incAmounts, List.filterMap_cons]
          have hloop : incAmounts levs =
              (deliveredLoop env.writeErrAt 0 env.chunks).map List.length := by
            have := downloadLoop_incAmounts env.writeErrAt env.streamTail env.chunks 0
            rw [hl] at this
            exact this
          rw [hsp]
          cases r with
          | error e => simp [afterStream, if_neg hc, if_neg hs, hincs, hloop]
          | ok u =>
            have happ : ∀ l2 : List Ev, incAmounts l2 = [] →
                incAmounts ((Ev.createTemp :: Ev.sendGet :: levs) ++ l2) =
                  (deliveredLoop env.writeErrAt 0 env.chunks).map List.length := by
              intro l2 h2
              rw [incAmounts_append, h2, List.append_nil, hincs, hloop]
            by_cases hro : env.renameOk = false
            · simp only [afterStream, if_pos hro, if_neg hc, if_neg hs]
              rw [hincs, hloop]
            · by_cases hmo : env.mtimeOk = false
              · simp only [afterStream, if_neg hro, if_pos hmo, if_neg hc, if_neg hs]
                exact happ [Ev.renameTempToFinal] rfl
              · simp only [afterStream, if_neg hro, if_neg hmo, if_neg hc, if_neg hs]
                exact happ [Ev.renameTempToFinal, Ev.setMtime] rfl
    · simp [incAmounts]
    · simp [incAmounts]

/-- Counterexample to claim C10 as stated: a fetch that fails (here the
GET request errors) ends without its progress bar ever being finished —
`finish_and_clear` is only called on the success path, so a failed
item's bar is not finalized. -/
theorem progress_not_finalized_cx :
    (processItem ['f'] envSendFail).1 = .error (['f'], .networkFailure) ∧
    Ev.finishBar ∉ (processItem ['f'] envSendFail).2 := by
  decide

/-- Claim C10 as amended: each in-flight item's progress counter
advances exactly by the byte lengths of the chunks it receives (hence
only ever increases along the trace), and the bar is finished and
cleared when the fetch ends successfully or is skipped; a failed fetch's
bar is never finished. -/
theorem progress_monotone_finalize (fname : List Char) (env : FetchEnv) (p q : List Ev)
    (hsplit : (processItem fname env).2 = p ++ q) :
    incAmounts (processItem fname env).2 = (deliveredChunks env).map List.length ∧
    (incAmounts p).sum ≤ (incAmounts (processItem fname env).2).sum ∧
    (∀ k, (processItem fname env).1 = .ok k →
      ∃ evs, (processItem fname env).2 = evs ++ [Ev.finishBar]) ∧
    ∀ er, (processItem fname env).1 = .error er →
      Ev.finishBar ∉ (processItem fname env).2 := by
  rcases hdf : download_file env with ⟨r, evs⟩
  have hincs := download_file_incAmounts env
  rw [hdf] at hincs
  have hfb := finishBar_not_mem_download env
  rw [hdf] at hfb
  cases r with
  | error e =>
    refine ⟨?_, ?_, ?_, ?_⟩
    · simp only [processItem, hdf]
      have h1 : incAmounts [Ev.removeTemp] = [] := rfl
      rw [incAmounts_append, h1, List.append_nil]
      exact hincs
    · rw [hsplit, incAmounts_append, List.sum_append]
      exact Nat.le_add_right _ _
    · intro k hk
      simp [processItem, hdf] at hk
    · intro er _
      simp only [processItem, hdf]
      simp [List.mem_append, hfb, incAmounts]
  | ok k =>
    refine ⟨?_, ?_, ?_, ?_⟩
    · simp only [processItem, hdf]
      have h1 : incAmounts [Ev.finishBar] = [] := rfl
      rw [incAmounts_append, h1, List.append_nil]
      exact hincs
    · rw [hsplit, incAmounts_append, List.sum_append]
      exact Nat.le_add_right _ _
    · intro k2 _
      exact ⟨evs, by simp [processItem, hdf]⟩
    · intro er her
      simp [processItem, hdf] at her

/-- Witness for `progress_monotone_finalize` at a concrete successful
fetch, taking the empty prefix of its trace. -/
theorem progress_monotone_finalize_witness :
    (processItem ['x'] envAllOk).2 = [] ++ (processItem ['x'] envAllOk).2 ∧
    (incAmounts (processItem ['x'] envAllOk).2 =
        (deliveredChunks envAllOk).map List.length ∧
      (incAmounts []).sum ≤ (incAmounts (processItem ['x'] envAllOk).2).sum ∧
      (∀ k, (processItem ['x'] envAllOk).1 = .ok k →
        ∃ evs, (processItem ['x'] envAllOk).2 = evs ++ [Ev.finishBar]) ∧
      ∀ er, (processItem ['x'] envAllOk).1 = .error er →
        Ev.finishBar ∉ (processItem ['x'] envAllOk).2) :=
  ⟨rfl, progress_monotone_finalize ['x'] envAllOk [] _ rfl⟩

/-! ### Claim C3: cleanup after a failed fetch -/

theorem rename_not_mem_streamPhase (env : FetchEnv) :
    Ev.renameTempToFinal ∉ (streamPhase env).2 := by
  intro h
  rcases streamPhase_events env _ h with h1 | h1 | ⟨n, h1⟩ | ⟨c, h1⟩ <;> exact Ev.noConfusion h1

/-- A fetch that fails with anything but the set-mtime error never
renamed the temp file. -/
theorem download_error_no_rename (env : FetchEnv) (e : DlError) (evs : List Ev)
    (hdf : download_file env = (.error e, evs)) (hne : e ≠ DlError.mtimeFailed) :
    Ev.renameTempToFinal ∉ evs := by
  by_cases hu : env.urlValid = false
  · simp only [download_file, if_pos hu, Prod.mk.injEq] at hdf
    rw [← hdf.2]
    simp
  · cases hm : env.destMeta <;> simp only [download_file, if_neg hu, hm] at hdf
    · simp at hdf
    · simp only [Prod.mk.injEq] at hdf
      rw [← hdf.2]
      simp
    · rcases hsp : streamPhase env with ⟨r0, sevs⟩
      rw [hsp] at hdf
      have hsev : Ev.renameTempToFinal ∉ sevs := by
        have := rename_not_mem_streamPhase env
        rw [hsp] at this
        exact this
      cases r0 with
      | error e0 =>
        simp only [afterStream, Prod.mk.injEq] at hdf
        rw [← hdf.2]
        exact hsev
      | ok u =>
        by_cases hro : env.renameOk = false
        · simp only [afterStream, if_pos hro, Prod.mk.injEq] at hdf
          rw [← hdf.2]
          exact hsev
        · by_cases hmo : env.mtimeOk = false
          · simp only [afterStream, if_neg hro, if_pos hmo, Prod.mk.injEq,
              Except.error.injEq] at hdf
            exact absurd hdf.1.symm hne
          · simp only [afterStream, if_neg hro, if_neg hmo, Prod.mk.injEq] at hdf
            exact absurd hdf.1 (by simp)
    · simp only [Prod.mk.injEq] at hdf
      rw [← hdf.2]
      simp
    · simp only [Prod.mk.injEq] at hdf
      rw [← hdf.2]
      simp

/-- Counterexample to claim C3 as stated: when every step succeeds except
setting the final file's modification time — a failing step after the
existence check — the fetch reports a failure, yet the fully-written file
does exist at the final path afterwards (the rename already happened). -/
theorem cleanup_mtime_cx :
    (processItem ['x'] envMtimeFail).1 = .error (['x'], .mtimeFailed) ∧
    (applyEvs ⟨none, none⟩ (processItem ['x'] envMtimeFail).2).final = some [1, 2, 3] := by
  decide

/-- Claim C3 as amended: for every fetch failing at a step after the
existence check and at or before the rename (temp-file creation, the GET
request or stream read, a chunk write, or the rename), the cleanup
deletes the temporary path (the trace ends with the best-effort
`remove_file`), afterwards no file exists at the final path and none at
the temporary path, and the original failure is propagated, wrapped with
the item's filename, as that item's outcome.  Only a failure of the
final set-modification-time step (after the rename) leaves the
fully-written file at the final path. -/
theorem cleanup_on_failure (fname : List Char) (env : FetchEnv) (e : DlError)
    (hres : (processItem fname env).1 = .error (fname, e))
    (hscope : e = .createFailed ∨ e = .networkFailure ∨ e = .writeFailed ∨
      e = .renameFailed) :
    (∃ evs, (processItem fname env).2 = evs ++ [Ev.removeTemp]) ∧
    (applyEvs ⟨none, none⟩ (processItem fname env).2).final = none ∧
    (applyEvs ⟨none, none⟩ (processItem fname env).2).temp = none := by
  rcases hdf : download_file env with ⟨r, evs⟩
  cases r with
  | ok k =>
    rw [processItem, hdf] at hres
    simp at hres
  | error e0 =>
    rw [processItem, hdf] at hres
    simp only [Except.error.injEq, Prod.mk.injEq] at hres
    have he0 : e0 = e := hres.2
    subst he0
    have hne : e0 ≠ DlError.mtimeFailed := by
      rcases hscope with h | h | h | h <;> subst h <;> simp
    have hrn : Ev.renameTempToFinal ∉ evs := download_error_no_rename env e0 evs hdf hne
    have htrace : (processItem fname env).2 = evs ++ [Ev.removeTemp] := by
      rw [processItem, hdf]
    refine ⟨⟨evs, htrace⟩, ?_, ?_⟩
    · rw [htrace, applyEvs_append]
      have h1 : (applyEvs ⟨none, none⟩ evs).final = none :=
        applyEvs_final_of_forall_ne evs ⟨none, none⟩ fun x hx hxe => hrn (hxe ▸ hx)
      have h2 : ∀ fs : FS, (applyEvs fs [Ev.removeTemp]).final = fs.final := fun fs => rfl
      rw [h2, h1]
    · rw [htrace, applyEvs_append]
      rfl

/-- Witness for `cleanup_on_failure` at a concrete fetch whose GET
request fails. -/
theorem cleanup_on_failure_witness :
    (processItem ['f'] envSendFail).1 = .error (['f'], .networkFailure) ∧
    ((∃ evs, (processItem ['f'] envSendFail).2 = evs ++ [Ev.removeTemp]) ∧
      (applyEvs ⟨none, none⟩ (processItem ['f'] envSendFail).2).final = none ∧
      (applyEvs ⟨none, none⟩ (processItem ['f'] envSendFail).2).temp = none) :=
  ⟨by decide, cleanup_on_failure ['f'] envSendFail .networkFailure (by decide)
    (Or.inr (Or.inl rfl))⟩

/-! ### Claim C2: the final path is only created by a completed rename -/

/-- Along any split of a rename-free trace, the final path's content is
unchanged. -/
theorem prefix_final_none (trace p q : List Ev) (h : trace = p ++ q)
    (hall : Ev.renameTempToFinal ∉ trace) :
    (applyEvs ⟨none, none⟩ p).final = none := by
  have hp : ∀ x ∈ p, x ≠ Ev.renameTempToFinal := by
    intro x hx heq
    subst heq
    apply hall
    rw [h]
    exact List.mem_append_left _ hx
  exact applyEvs_final_of_forall_ne p ⟨none, none⟩ hp

/-- Walking into a trace segment of the form `rename :: post` from a
state whose temp file holds `J`: before the rename the final path is
still empty, at and after it (as long as `post` contains no further
rename) it holds exactly `J`. -/
theorem applyEvs_mid_rename (J : List Nat) (c2 post q : List Ev)
    (hpost : Ev.renameTempToFinal ∉ post)
    (hsplit : c2 ++ q = Ev.renameTempToFinal :: post) :
    (applyEvs ⟨some J, none⟩ c2).final = none ∨
    (applyEvs ⟨some J, none⟩ c2).final = some J := by
  cases c2 with
  | nil => exact Or.inl rfl
  | cons x c2 =>
    have hx : x = Ev.renameTempToFinal ∧ c2 ++ q = post := by
      simpa using hsplit
    rcases hx with ⟨hx1, hx2⟩
    subst hx1
    right
    have hstep : applyEvs ⟨some J, none⟩ (Ev.renameTempToFinal :: c2) =
        applyEvs ⟨none, some J⟩ c2 := rfl
    rw [hstep]
    apply applyEvs_final_of_forall_ne
    intro e he heq
    subst heq
    apply hpost
    rw [← hx2]
    exact List.mem_append_left _ he

/-- Claim C2: the final path is only ever touched by the rename event
(first conjunct: every other event leaves the final path unchanged), and
for every fetch starting with an absent final path, at every point of
its trace the final path either does not exist yet or holds exactly the
full stream content — a reader never observes a partially-written file
at the final path. -/
theorem final_path_atomic (fname : List Char) (env : FetchEnv)
    (hmeta : env.destMeta = .notFound) (p q : List Ev)
    (hsplit : (processItem fname env).2 = p ++ q) :
    (∀ (fs : FS) (e : Ev), e ≠ Ev.renameTempToFinal → (applyEv fs e).final = fs.final) ∧
    ((applyEvs ⟨none, none⟩ p).final = none ∨
     (applyEvs ⟨none, none⟩ p).final = some env.chunks.flatten) := by
  refine ⟨fun fs e h => applyEv_final_of_ne fs e h, ?_⟩
  by_cases hu : env.urlValid = false
  · have hdf : download_file env = (.error .urlInvalid, []) := by
      simp [download_file, hu]
    have htr : (processItem fname env).2 = [Ev.removeTemp] := by
      simp [processItem, hdf]
    rw [htr] at hsplit
    exact Or.inl (prefix_final_none _ p q hsplit (by simp))
  · rcases hsp : streamPhase env with ⟨r0, sevs⟩
    have hsev : Ev.renameTempToFinal ∉ sevs := by
      have := rename_not_mem_streamPhase env
      rw [hsp] at this
      exact this
    have hdf : download_file env = afterStream env.renameOk env.mtimeOk r0 sevs := by
      simp only [download_file, if_neg hu, hmeta, hsp]
    cases r0 with
    | error e0 =>
      have htr : (processItem fname env).2 = sevs ++ [Ev.removeTemp] := by
        simp only [afterStream] at hdf
        simp only [processItem, hdf]
      rw [htr] at hsplit
      refine Or.inl (prefix_final_none _ p q hsplit ?_)
      simp [List.mem_append, hsev]
    | ok u =>
      have hok : (streamPhase env).1 = .ok () := by rw [hsp]
      have hstate : applyEvs ⟨none, none⟩ sevs = ⟨some env.chunks.flatten, none⟩ := by
        have := streamPhase_ok_state env none hok
        rw [hsp] at this
        exact this
      by_cases hro : env.renameOk = false
      · have htr : (processItem fname env).2 = sevs ++ [Ev.removeTemp] := by
          simp only [afterStream, if_pos hro] at hdf
          simp only [processItem, hdf]
        rw [htr] at hsplit
        refine Or.inl (prefix_final_none _ p q hsplit ?_)
        simp [List.mem_append, hsev]
      · by_cases hmo : env.mtimeOk = false
        · have htr : (processItem fname env).2 =
              sevs ++ (Ev.renameTempToFinal :: [Ev.removeTemp]) := by
            simp only [afterStream, if_neg hro, if_pos hmo] at hdf
            simp only [processItem, hdf]
            simp [List.append_assoc]
          rw [htr] at hsplit
          rcases List.append_eq_append_iff.mp hsplit.symm with ⟨a2, ha1, _⟩ | ⟨c2, hc1, hc2⟩
          · refine Or.inl (prefix_final_none sevs p a2 ha1 hsev)
          · subst hc1
            rw [applyEvs_append, hstate]
            exact applyEvs_mid_rename env.chunks.flatten c2 [Ev.removeTemp] q
              (by simp) hc2.symm
        · have htr : (processItem fname env).2 =
              sevs ++ (Ev.renameTempToFinal :: [Ev.setMtime, Ev.finishBar]) := by
            simp only [afterStream, if_neg hro, if_neg hmo] at hdf
            simp only [processItem, hdf]
            simp [List.append_assoc]
          rw [htr] at hsplit
          rcases List.append_eq_append_iff.mp hsplit.symm with ⟨a2, ha1, _⟩ | ⟨c2, hc1, hc2⟩
          · refine Or.inl (prefix_final_none sevs p a2 ha1 hsev)
          · subst hc1
            rw [applyEvs_append, hstate]
            exact applyEvs_mid_rename env.chunks.flatten c2 [Ev.setMtime, Ev.finishBar] q
              (by simp) hc2.symm

/-- Witness for `final_path_atomic`: a fully successful concrete fetch,
split after its whole trace, ends with the final path holding the full
stream content. -/
theorem final_path_atomic_witness :
    envAllOk.destMeta = .notFound ∧
    (processItem ['x'] envAllOk).2 = (processItem ['x'] envAllOk).2 ++ [] ∧
    ((∀ (fs : FS) (e : Ev), e ≠ Ev.renameTempToFinal → (applyEv fs e).final = fs.final) ∧
      ((applyEvs ⟨none, none⟩ (processItem ['x'] envAllOk).2).final = none ∨
       (applyEvs ⟨none, none⟩ (processItem ['x'] envAllOk).2).final =
         some envAllOk.chunks.flatten)) :=
  ⟨rfl, (List.append_nil _).symm,
    final_path_atomic ['x'] envAllOk rfl _ [] (List.append_nil _).symm⟩

/-! ### Claim C5: width and filename uniqueness -/

theorem decDigitsFuel_eq : ∀ (fuel n : Nat), n ≤ fuel → decDigitsFuel fuel n = Nat.digits 10 n := by
  intro fuel
  induction fuel with
  | zero =>
    intro n hn
    interval_cases n
    simp [decDigitsFuel]
  | succ fuel ih =>
    intro n hn
    cases n with
    | zero => simp [decDigitsFuel]
    | succ m =>
      rw [Nat.digits_def' (by norm_num : (1 : ℕ) < 10) (Nat.succ_pos m)]
      show ((m + 1) % 10) :: decDigitsFuel fuel ((m + 1) / 10) = _
      congr 1
      apply ih
      have hd : (m + 1) / 10 < m + 1 := Nat.div_lt_self (Nat.succ_pos m) (by norm_num)
      omega

theorem decDigitsLE_eq (n : Nat) : decDigitsLE n = Nat.digits 10 n :=
  decDigitsFuel_eq n n le_rfl

theorem digitCountLoop_eq (n : Nat) : digitCountLoop n = (Nat.digits 10 n).length := by
  induction n using Nat.strong_induction_on with
  | _ n ih =>
    by_cases h : n = 0
    · subst h
      rw [digitCountLoop]
      simp
    · rw [digitCountLoop]
      simp only [h, dif_neg, dite_false]
      rw [Nat.digits_def' (by norm_num : (1 : ℕ) < 10) (Nat.pos_of_ne_zero h)]
      rw [ih (n / 10) (Nat.div_lt_self (Nat.pos_of_ne_zero h) (by norm_num))]
      simp

theorem i32OfUsize_small (n : Nat) (h : n < 2 ^ 31) : i32OfUsize n = (n : Int) := by
  unfold i32OfUsize
  have hmod : n % 2 ^ 32 = n := Nat.mod_eq_of_lt (by omega)
  rw [hmod, if_pos h]

theorem filenameWidth_eq (n : Nat) (h : n < 2 ^ 31) :
    filenameWidth n = (Nat.digits 10 n).length := by
  simp only [filenameWidth]
  rw [i32OfUsize_small n h]
  by_cases h0 : n = 0
  · subst h0
    simp
  · have hpos : ¬((n : Int) ≤ 0) := by
      simp only [not_le]
      exact_mod_cast Nat.pos_of_ne_zero h0
    rw [if_neg hpos, Int.toNat_natCast]
    exact digitCountLoop_eq n

theorem foldl_replicate_zero (k : Nat) :
    List.foldl (fun a d => 10 * a + d) 0 (List.replicate k 0) = 0 := by
  induction k with
  | zero => rfl
  | succ k ih => simpa using ih

theorem decValue_digitsBE (n : Nat) : decValue (decimalDigitsBE n) = n := by
  unfold decValue decimalDigitsBE
  rw [decDigitsLE_eq, List.foldl_reverse]
  have hfold : ∀ L : List Nat, L.foldr (fun x y => 10 * y + x) 0 = Nat.ofDigits 10 L := by
    intro L
    induction L with
    | nil => simp [Nat.ofDigits]
    | cons d L ih =>
      rw [List.foldr_cons, ih, Nat.ofDigits_cons]
      ring
  rw [hfold]
  exact_mod_cast Nat.ofDigits_digits 10 n

theorem decValue_zeroPad (w n : Nat) : decValue (zeroPad w (decimalDigitsBE n)) = n := by
  unfold zeroPad
  show decValue (List.replicate (w - (decimalDigitsBE n).length) 0 ++ decimalDigitsBE n) = n
  unfold decValue
  rw [List.foldl_append, foldl_replicate_zero]
  exact decValue_digitsBE n

theorem zeroPad_digits_lt (n w : Nat) : ∀ d ∈ zeroPad w (decimalDigitsBE n), d < 10 := by
  intro d hd
  unfold zeroPad at hd
  rcases List.mem_append.mp hd with h | h
  · have h0 := List.eq_of_mem_replicate h
    omega
  · unfold decimalDigitsBE at h
    rw [decDigitsLE_eq] at h
    exact Nat.digits_lt_base (by norm_num) (List.mem_reverse.mp h)

theorem digitChar_toNat (d : Nat) (h : d < 10) : (Nat.digitChar d).toNat = 48 + d := by
  interval_cases d <;> rfl

theorem unmap_fmtIndex (w n : Nat) :
    (fmtIndex w n).map (fun c => c.toNat - 48) = zeroPad w (decimalDigitsBE n) := by
  unfold fmtIndex
  rw [List.map_map]
  have hpt : ∀ d ∈ zeroPad w (decimalDigitsBE n),
      ((fun c : Char => c.toNat - 48) ∘ Nat.digitChar) d = id d := by
    intro d hd
    have hlt : d < 10 := zeroPad_digits_lt n w d hd
    simp [Function.comp, digitChar_toNat d hlt]
  rw [List.map_congr_left hpt, List.map_id]

theorem fmtIndex_inj (w m n : Nat) (he : fmtIndex w m = fmtIndex w n) : m = n := by
  have h1 := congrArg (List.map (fun c : Char => c.toNat - 48)) he
  rw [unmap_fmtIndex, unmap_fmtIndex] at h1
  have h2 := congrArg decValue h1
  rw [decValue_zeroPad, decValue_zeroPad] at h2
  exact h2

theorem digits_len_le_of_le (m n : Nat) (h0 : 0 < m) (hmn : m ≤ n) :
    (Nat.digits 10 m).length ≤ (Nat.digits 10 n).length := by
  rw [Nat.digits_len 10 m (by norm_num) (by omega), Nat.digits_len 10 n (by norm_num) (by omega)]
  exact Nat.add_le_add_right (Nat.log_mono_right hmn) 1

theorem fmtIndex_length (w n : Nat) (h : (Nat.digits 10 n).length ≤ w) :
    (fmtIndex w n).length = w := by
  unfold fmtIndex zeroPad
  rw [List.length_map, List.length_append, List.length_replicate]
  have hbe : (decimalDigitsBE n).length = (Nat.digits 10 n).length := by
    unfold decimalDigitsBE
    rw [decDigitsLE_eq, List.length_reverse]
  omega

theorem itemFilename_eq_append (w idx : Nat) (mediaId : List Char)
    (title descr : Option (List Char)) (ct : List Char) :
    itemFilename w idx mediaId title descr ct = fmtIndex w (idx + 1) ++
      (" - ".toList ++ mediaId ++ optionPart title ++ optionPart descr ++ ['.']
        ++ get_media_type ct) := by
  simp [itemFilename, List.append_assoc]

/-- Counterexample to claim C5 as stated: the item count is cast to a
32-bit signed integer before the digit-counting loop, so at the count
`2 ^ 31` the cast value is negative, the loop runs zero times, and the
zero-padding width is 0 instead of the count's digit count (10). -/
theorem width_overflow_cx :
    filenameWidth (2 ^ 31) ≠ (Nat.digits 10 (2 ^ 31)).length := by
  intro h
  have h0 : filenameWidth (2 ^ 31) = 0 := by decide
  rw [h0] at h
  have h1 : Nat.digits 10 (2 ^ 31) ≠ [] := Nat.digits_ne_nil_iff_ne_zero.mpr (by norm_num)
  exact h1 (List.length_eq_zero.mp h.symm)

/-- Claim C5 as amended: for every item count `N` with `1 ≤ N < 2^31`
(the range in which the `usize → i32` cast is lossless), the zero-padding
width equals the decimal digit count of `N`, and any two generated
filenames at distinct indices below `N` differ, whatever each item's
identifier, title, description and content type are — the zero-padded
1-based index prefix already separates them. -/
theorem width_and_filenames_distinct (N : Nat) (h1 : 1 ≤ N) (h2 : N < 2 ^ 31) :
    filenameWidth N = (Nat.digits 10 N).length ∧
    ∀ i j, i < N → j < N → i ≠ j →
      ∀ id1 t1 d1 ct1 id2 t2 d2 ct2,
        itemFilename (filenameWidth N) i id1 t1 d1 ct1 ≠
          itemFilename (filenameWidth N) j id2 t2 d2 ct2 := by
  have hw := filenameWidth_eq N h2
  refine ⟨hw, ?_⟩
  intro i j hi hj hij id1 t1 d1 ct1 id2 t2 d2 ct2 heq
  apply hij
  have hli : (Nat.digits 10 (i + 1)).length ≤ filenameWidth N := by
    rw [hw]
    exact digits_len_le_of_le (i + 1) N (Nat.succ_pos i) (by omega)
  have hlj : (Nat.digits 10 (j + 1)).length ≤ filenameWidth N := by
    rw [hw]
    exact digits_len_le_of_le (j + 1) N (Nat.succ_pos j) (by omega)
  have htki : List.take (filenameWidth N) (itemFilename (filenameWidth N) i id1 t1 d1 ct1)
      = fmtIndex (filenameWidth N) (i + 1) := by
    rw [itemFilename_eq_append]
    exact List.take_left' (fmtIndex_length _ _ hli)
  have htkj : List.take (filenameWidth N) (itemFilename (filenameWidth N) j id2 t2 d2 ct2)
      = fmtIndex (filenameWidth N) (j + 1) := by
    rw [itemFilename_eq_append]
    exact List.take_left' (fmtIndex_length _ _ hlj)
  have heq2 : fmtIndex (filenameWidth N) (i + 1) = fmtIndex (filenameWidth N) (j + 1) := by
    rw [← htki, ← htkj, heq]
  have := fmtIndex_inj (filenameWidth N) (i + 1) (j + 1) heq2
  omega

/-- Witness for `width_and_filenames_distinct` at the item count 3. -/
theorem width_and_filenames_distinct_witness :
    1 ≤ 3 ∧ 3 < 2 ^ 31 ∧
    (filenameWidth 3 = (Nat.digits 10 3).length ∧
      ∀ i j, i < 3 → j < 3 → i ≠ j →
        ∀ id1 t1 d1 ct1 id2 t2 d2 ct2,
          itemFilename (filenameWidth 3) i id1 t1 d1 ct1 ≠
            itemFilename (filenameWidth 3) j id2 t2 d2 ct2) :=
  ⟨by norm_num, by norm_num, width_and_filenames_distinct 3 (by norm_num) (by norm_num)⟩

/-! ### Claim C6: filenames and path separators -/

theorem fmtIndex_no_slash (w n : Nat) : '/' ∉ fmtIndex w n := by
  intro h
  unfold fmtIndex at h
  rcases List.mem_map.mp h with ⟨d, hd, hch⟩
  have hlt : d < 10 := zeroPad_digits_lt n w d hd
  have h48 := digitChar_toNat d hlt
  have h47 : (Nat.digitChar d).toNat = 47 := by rw [hch]; rfl
  omega

theorem splitSubtype_count (ct : List Char) :
    ∀ sub, splitSubtype ct = some sub →
      List.count '/' ct = List.count '/' sub + 1 := by
  induction ct with
  | nil => intro sub h; simp [splitSubtype] at h
  | cons c cs ih =>
    intro sub h
    by_cases hc : c = '/'
    · rw [splitSubtype, if_pos hc] at h
      have hsub : cs = sub := by simpa using h
      subst hsub
      subst hc
      simp [List.count_cons]
    · rw [splitSubtype, if_neg hc] at h
      have h2 := ih sub h
      simp only [List.count_cons]
      simp [hc]
      omega

theorem get_media_type_no_slash (ct : List Char) (h : List.count '/' ct ≤ 1) :
    '/' ∉ get_media_type ct := by
  cases hs : splitSubtype ct with
  | none =>
    have hred : get_media_type ct = "unknown".toList := by
      unfold get_media_type
      rw [hs]
    rw [hred]
    decide
  | some sub =>
    have hred : get_media_type ct = if sub = "jpeg".toList then "jpg".toList else sub := by
      unfold get_media_type
      rw [hs]
    rw [hred]
    by_cases hj : sub = "jpeg".toList
    · rw [if_pos hj]
      decide
    · rw [if_neg hj]
      have hcount := splitSubtype_count ct sub hs
      have hc0 : List.count '/' sub = 0 := by omega
      exact List.count_eq_zero.mp hc0

/-- Counterexample to claim C6 as stated: the Naming Policy does not
sanitize the free-text metadata, so an item title containing `/` puts a
path separator straight into the generated filename. -/
theorem filename_slash_cx :
    '/' ∈ itemFilename 1 0 "abc".toList (some "a/b".toList) none "image/png".toList := by
  decide

/-- Claim C6 as amended: the index prefix, separators and extension dot
never contribute a path separator, so whenever the identifier, title and
description contain no `/` and the content-type contains at most one `/`
(so that the derived extension has none), the generated filename
contains no path-separator characters. -/
theorem filename_no_separator (w idx : Nat) (mediaId : List Char)
    (title descr : Option (List Char)) (ct : List Char)
    (hid : '/' ∉ mediaId)
    (ht : ∀ s, title = some s → '/' ∉ s)
    (hd : ∀ s, descr = some s → '/' ∉ s)
    (hct : List.count '/' ct ≤ 1) :
    '/' ∉ itemFilename w idx mediaId title descr ct := by
  intro hmem
  rw [itemFilename_eq_append] at hmem
  rcases List.mem_append.mp hmem with h | h
  · exact fmtIndex_no_slash w (idx + 1) h
  · rcases List.mem_append.mp h with h | h
    · rcases List.mem_append.mp h with h | h
      · rcases List.mem_append.mp h with h | h
        · rcases List.mem_append.mp h with h | h
          · rcases List.mem_append.mp h with h | h
            · exact absurd h (by decide)
            · exact hid h
          · cases title with
            | none => exact absurd h (by simp [optionPart])
            | some s =>
              rw [show optionPart (some s) = " - ".toList ++ s from rfl] at h
              rcases List.mem_append.mp h with h2 | h2
              · exact absurd h2 (by decide)
              · exact ht s rfl h2
        · cases descr with
          | none => exact absurd h (by simp [optionPart])
          | some s =>
            rw [show optionPart (some s) = " - ".toList ++ s from rfl] at h
            rcases List.mem_append.mp h with h2 | h2
            · exact absurd h2 (by decide)
            · exact hd s rfl h2
      · exact absurd h (by decide)
    · exact get_media_type_no_slash ct hct h

/-- Witness for `filename_no_separator` at a concrete clean input. -/
theorem filename_no_separator_witness :
    '/' ∉ "abc".toList ∧ List.count '/' "image/png".toList ≤ 1 ∧
    '/' ∉ itemFilename 1 0 "abc".toList none none "image/png".toList :=
  ⟨by decide, by decide,
    filename_no_separator 1 0 "abc".toList none none "image/png".toList (by decide)
      (fun s hs => Option.noConfusion hs) (fun s hs => Option.noConfusion hs) (by decide)⟩

end Imgurs
